import Mathlib

/-!
Verification of the perpetuity retirement simulator (src/perpetuity/simulation.py).

The simulator core is embedded shallowly: monetary quantities are rationals,
years are integers, and the generator produced by the method named underscore-run
is modelled as a step function on an explicit state type together with a
bounded unfolding of that step function.  Division by zero in the rationals is
the usual total convention of Mathlib; the Python code never divides by zero on
the inputs any claim exercises.
-/

/-- A certificate of deposit, mirroring class CD of simulation.py. -/
structure CD where
  year : Int
  maturity : Int
  rate : ℚ
  price : ℚ
  deriving DecidableEq

/-- CD.future_value of simulation.py.  The optional argument defaults to
year + maturity when absent, and the exponent is clamped at maturity. -/
def CD.future_value (cd : CD) (future_year : Option Int) : ℚ :=
  let fy := match future_year with
    | none => cd.year + cd.maturity
    | some y => y
  cd.price * (1 + cd.rate) ^ (min cd.maturity (fy - cd.year))

/-- The six construction parameters of class Simulator. -/
structure Config where
  initial_balance : ℚ
  desired_income : ℚ
  desired_cd_maturity : Int
  cd_rate : ℚ
  investment_return : ℚ
  inflation_rate : ℚ
  deriving DecidableEq

/-- One record yielded by the simulation: the 4-tuple
(year, income, cd_portfolio, balance). -/
structure Record where
  year : Int
  income : ℚ
  portfolio : List CD
  balance : ℚ
  deriving DecidableEq

/-- The maturities 1, 2, ..., desired_cd_maturity walked by the Phase-0 loop
(range(1, 1 + desired_cd_maturity) in the Python source; empty when the
desired maturity is below 1). -/
def ladderMaturities (cfg : Config) : List Int :=
  (List.range cfg.desired_cd_maturity.toNat).map (fun (i : Nat) => (i : Int) + 1)

/-- The Phase-0 rung loop of Simulator, from simulation.py: for each maturity,
buy a CD priced at the target discounted price capped by the available balance,
and stop early as soon as the balance is exactly zero.  The check runs after
the append, so the rung that exhausts the balance is still bought.  Returns the
final balance and the portfolio in purchase order. -/
def buildLadder (cfg : Config) (balance : ℚ) : List Int → ℚ × List CD
  | [] => (balance, [])
  | m :: rest =>
    let current_cd_rate : ℚ := 0.2 * (m : ℚ) * cfg.cd_rate
    let current_cd_price : ℚ :=
      min balance
        ((cfg.desired_income * (1 + cfg.inflation_rate) ^ m) / (1 + current_cd_rate) ^ m)
    let balance' := balance - current_cd_price
    let cd : CD := ⟨0, m, current_cd_rate, current_cd_price⟩
    if balance' = 0 then (balance', [cd])
    else
      let r := buildLadder cfg balance' rest
      (r.1, cd :: r.2)

/-- The immediate year-0 income withdrawal: min(balance, desired_income). -/
def phase0Income (cfg : Config) : ℚ := min cfg.initial_balance cfg.desired_income

/-- The balance entering the Phase-0 rung loop, after the year-0 withdrawal. -/
def phase0Balance (cfg : Config) : ℚ := cfg.initial_balance - phase0Income cfg

/-- Balance and portfolio at the end of Phase 0. -/
def ladderResult (cfg : Config) : ℚ × List CD :=
  buildLadder cfg (phase0Balance cfg) (ladderMaturities cfg)

/-- The state of the generator between yields: not yet started, inside the
rollover loop (Phase 1), or inside the drain loop (Phase 2). -/
inductive SimState where
  | start
  | phase1 (year : Int) (balance : ℚ) (portfolio : List CD)
  | phase2 (year : Int) (balance : ℚ) (portfolio : List CD)
  deriving DecidableEq

/-- One yield of the generator: from the given state, the emitted record and
the successor state, or none when the generator is exhausted.  This transcribes
the body of the generator in simulation.py: Phase 0 runs once and yields the
year-0 record; each Phase-1 iteration grows the balance, redeems the front CD
and rolls over (or, with an empty portfolio, withdraws directly), yields, and
breaks to Phase 2 exactly when the balance is zero; each Phase-2 iteration pops
the front CD, terminating on an empty portfolio. -/
def step (cfg : Config) : SimState → Option (Record × SimState)
  | SimState.start =>
    let income := phase0Income cfg
    let res := ladderResult cfg
    some (⟨0, income, res.2, res.1⟩, SimState.phase1 0 res.1 res.2)
  | SimState.phase1 year balance port =>
    let year' := year + 1
    let b1 := balance * (1 + cfg.investment_return)
    match port with
    | [] =>
      let income := min b1 cfg.desired_income
      let b2 := b1 - income
      some (⟨year', income, [], b2⟩,
        if b2 = 0 then SimState.phase2 year' b2 [] else SimState.phase1 year' b2 [])
    | cd :: rest =>
      let income := cd.future_value (some year')
      let cd_maturity := cfg.desired_cd_maturity
      let current_cd_rate : ℚ := 0.2 * (cd_maturity : ℚ) * cfg.cd_rate
      let current_cd_price : ℚ :=
        min b1
          ((cfg.desired_income * (1 + cfg.inflation_rate) ^ (year' + cd_maturity)) /
            (1 + current_cd_rate) ^ cd_maturity)
      let b2 := b1 - current_cd_price
      let newcd : CD := ⟨year', cd_maturity, cfg.cd_rate, current_cd_price⟩
      let port' := rest ++ [newcd]
      some (⟨year', income, port', b2⟩,
        if b2 = 0 then SimState.phase2 year' b2 port' else SimState.phase1 year' b2 port')
  | SimState.phase2 year balance port =>
    match port with
    | [] => none
    | cd :: rest =>
      let year' := year + 1
      some (⟨year', cd.future_value (some year'), rest, balance⟩,
        SimState.phase2 year' balance rest)

/-- Unfold the step function at most n times from a state, collecting the
emitted records. -/
def runFrom (cfg : Config) : SimState → Nat → List Record
  | _, 0 => []
  | s, n + 1 =>
    match step cfg s with
    | none => []
    | some (r, s') => r :: runFrom cfg s' n

/-- Simulator.run(max_years): at most max_years records pulled from a fresh
underlying generator. -/
def Simulator.run (cfg : Config) (max_years : Nat) : List Record :=
  runFrom cfg SimState.start max_years

/-- Iterate the step function n times, keeping only the state; none once the
generator has terminated. -/
def iter (cfg : Config) : Nat → SimState → Option SimState
  | 0, s => some s
  | n + 1, s =>
    match step cfg s with
    | none => none
    | some (_, s') => iter cfg n s'

/-- The portfolio held in a generator state (empty before the run starts). -/
def portOf : SimState → List CD
  | SimState.start => []
  | SimState.phase1 _ _ p => p
  | SimState.phase2 _ _ p => p

/-- The year of purchase plus the term: the year in which a CD matures. -/
def maturityKey (cd : CD) : Int := cd.year + cd.maturity

/-- The portfolio is ordered by maturity year: front matures soonest. -/
def PortSorted (p : List CD) : Prop :=
  p.Pairwise (fun a b => maturityKey a ≤ maturityKey b)

/-- Every CD held at state year y matures by year y + desired_cd_maturity. -/
def PortBound (cfg : Config) (y : Int) (p : List CD) : Prop :=
  ∀ cd ∈ p, maturityKey cd ≤ y + cfg.desired_cd_maturity

/-- The degenerate configuration of the spec scenario: zero initial balance,
desired income 100, the remaining parameters at their CLI defaults. -/
def cfg7 : Config := ⟨0, 100, 5, 1/100, 1/20, 1/40⟩

/-- A configuration with inflation rate -3: the inflated income target of the
first rung is negative, so the rung bought with a zero balance has a negative
price rather than a zero price. -/
def cfgN : Config := ⟨0, 100, 5, 0, 0, -3⟩

/-- The rollover purchase price of the Phase-1 non-empty branch: the inflated
income target discounted at the terminal rung rate, capped by the grown
balance (the expression of simulation.py, with y the year before the
increment). -/
def rolloverPrice (cfg : Config) (y : Int) (b : ℚ) : ℚ :=
  min (b * (1 + cfg.investment_return))
    ((cfg.desired_income * (1 + cfg.inflation_rate) ^ (y + 1 + cfg.desired_cd_maturity)) /
      (1 + 0.2 * (cfg.desired_cd_maturity : ℚ) * cfg.cd_rate) ^ cfg.desired_cd_maturity)

/-- The target price of the first Phase-0 rung (maturity 1). -/
def firstRungTarget (cfg : Config) : ℚ :=
  (cfg.desired_income * (1 + cfg.inflation_rate) ^ (1 : Int)) /
    (1 + 0.2 * (1 : ℚ) * cfg.cd_rate) ^ (1 : Int)

/-- Phase 0 as the claims and the spec word it, for comparison with the code
embedding: one rung for each maturity m counting up from 1 for
desired_cd_maturity steps, with rung rate 0.2 * m * cd_rate, price
min(balance, target), the price deducted from the balance, and the loop
stopped early as soon as the balance reaches exactly 0. -/
def specRungs (cfg : Config) : Nat → Int → ℚ → ℚ × List CD
  | 0, _, balance => (balance, [])
  | count + 1, m, balance =>
    let rung_rate : ℚ := 0.2 * (m : ℚ) * cfg.cd_rate
    let target_price : ℚ :=
      (cfg.desired_income * (1 + cfg.inflation_rate) ^ m) / (1 + rung_rate) ^ m
    let price : ℚ := min balance target_price
    let balance' := balance - price
    if balance' = 0 then (balance', [⟨0, m, rung_rate, price⟩])
    else
      let r := specRungs cfg count (m + 1) balance'
      (r.1, ⟨0, m, rung_rate, price⟩ :: r.2)


/-- The invariant every reachable generator state satisfies: the balance is
nonnegative during Phase 1 and exactly zero during Phase 2, the portfolio is
ordered by maturity year, every held CD matures within desired_cd_maturity
years of the current year, and the Phase-1 portfolio size equals the number of
rungs built in Phase 0. -/
def SimInv (cfg : Config) : SimState → Prop
  | SimState.start => True
  | SimState.phase1 y b p =>
      0 ≤ b ∧ PortSorted p ∧ PortBound cfg y p ∧ p.length = (ladderResult cfg).2.length
  | SimState.phase2 y b p => b = 0 ∧ PortSorted p ∧ PortBound cfg y p

lemma sub_min_nonneg (b x : ℚ) : 0 ≤ b - min b x :=
  sub_nonneg.mpr (min_le_left b x)

lemma buildLadder_fst_nonneg (cfg : Config) :
    ∀ (ms : List Int) (b : ℚ), 0 ≤ b → 0 ≤ (buildLadder cfg b ms).1 := by
  intro ms
  induction ms with
  | nil => intro b hb; simpa [buildLadder] using hb
  | cons m rest ih =>
    intro b _
    have h2 : 0 ≤ b - min b
        ((cfg.desired_income * (1 + cfg.inflation_rate) ^ m) /
          (1 + 0.2 * (m : ℚ) * cfg.cd_rate) ^ m) := sub_min_nonneg _ _
    simp only [buildLadder]
    split
    · exact h2
    · exact ih _ h2

lemma buildLadder_keys (cfg : Config) :
    ∀ (ms : List Int) (b : ℚ),
      ((buildLadder cfg b ms).2.map maturityKey) = ms.take (buildLadder cfg b ms).2.length ∧
      (ms ≠ [] → (buildLadder cfg b ms).2 ≠ []) := by
  intro ms
  induction ms with
  | nil => intro b; simp [buildLadder]
  | cons m rest ih =>
    intro b
    simp only [buildLadder]
    split
    · simp [maturityKey]
    · have h := ih (b - min b
        ((cfg.desired_income * (1 + cfg.inflation_rate) ^ m) /
          (1 + 0.2 * (m : ℚ) * cfg.cd_rate) ^ m))
      simp [maturityKey, h.1]

lemma ladderMaturities_mem (cfg : Config) :
    ∀ m ∈ ladderMaturities cfg, 1 ≤ m ∧ m ≤ cfg.desired_cd_maturity := by
  intro m hm
  simp only [ladderMaturities, List.mem_map, List.mem_range] at hm
  obtain ⟨i, hi, rfl⟩ := hm
  omega

lemma ladderMaturities_sorted (cfg : Config) :
    (ladderMaturities cfg).Pairwise (· ≤ ·) := by
  have h : (List.range cfg.desired_cd_maturity.toNat).Pairwise (· < ·) :=
    List.pairwise_lt_range cfg.desired_cd_maturity.toNat
  exact h.map (fun (i : Nat) => (i : Int) + 1) (fun a b hab => by dsimp only; omega)

lemma ladder_sorted_bound (cfg : Config) :
    PortSorted (ladderResult cfg).2 ∧ PortBound cfg 0 (ladderResult cfg).2 := by
  have hkeys := (buildLadder_keys cfg (ladderMaturities cfg) (phase0Balance cfg)).1
  constructor
  · have hs : ((ladderResult cfg).2.map maturityKey).Pairwise (· ≤ ·) := by
      rw [ladderResult, hkeys]
      exact (ladderMaturities_sorted cfg).sublist (List.take_sublist _ _)
    rw [List.pairwise_map] at hs
    exact hs
  · intro cd hcd
    have hk : maturityKey cd ∈ (ladderResult cfg).2.map maturityKey :=
      List.mem_map_of_mem _ hcd
    rw [ladderResult, hkeys] at hk
    have hk2 : maturityKey cd ∈ ladderMaturities cfg :=
      (List.take_sublist _ _).subset hk
    have := (ladderMaturities_mem cfg _ hk2).2
    omega

lemma ladder_ne_nil (cfg : Config) (h : 1 ≤ cfg.desired_cd_maturity) :
    (ladderResult cfg).2 ≠ [] := by
  have hne : ladderMaturities cfg ≠ [] := by
    simp only [ladderMaturities, ne_eq, List.map_eq_nil_iff, List.range_eq_nil]
    omega
  exact (buildLadder_keys cfg (ladderMaturities cfg) (phase0Balance cfg)).2 hne

lemma ladder_nil_of_lt_one (cfg : Config) (h : cfg.desired_cd_maturity < 1) :
    (ladderResult cfg).2 = [] := by
  have hms : ladderMaturities cfg = [] := by
    simp only [ladderMaturities, List.map_eq_nil_iff, List.range_eq_nil]
    omega
  simp [ladderResult, hms, buildLadder]


lemma portBound_nil (cfg : Config) (y : Int) : PortBound cfg y [] := by
  intro cd hcd
  simp at hcd

lemma step_inv (cfg : Config) {s : SimState} {r : Record} {s' : SimState}
    (hI : SimInv cfg s) (he : step cfg s = some (r, s')) :
    SimInv cfg s' ∧ 0 ≤ r.balance ∧ r.portfolio = portOf s' := by
  cases s with
  | start =>
    simp only [step, Option.some.injEq, Prod.mk.injEq] at he
    obtain ⟨hr, hs⟩ := he
    subst hr
    subst hs
    have hbal : 0 ≤ (ladderResult cfg).1 :=
      buildLadder_fst_nonneg cfg _ _ (sub_min_nonneg _ _)
    have hsb := ladder_sorted_bound cfg
    exact ⟨⟨hbal, hsb.1, hsb.2, rfl⟩, hbal, rfl⟩
  | phase1 y b p =>
    obtain ⟨hb, hsort, hbound, hlen⟩ := hI
    cases p with
    | nil =>
      simp only [step, Option.some.injEq, Prod.mk.injEq] at he
      obtain ⟨hr, hs⟩ := he
      subst hr
      subst hs
      have hb2 : 0 ≤ b * (1 + cfg.investment_return) -
          min (b * (1 + cfg.investment_return)) cfg.desired_income := sub_min_nonneg _ _
      refine ⟨?_, hb2, ?_⟩
      · split
        · next hc => exact ⟨hc, List.Pairwise.nil, portBound_nil cfg _⟩
        · next hc =>
          exact ⟨hb2, List.Pairwise.nil, portBound_nil cfg _, by simpa using hlen⟩
      · split
        · rfl
        · rfl
    | cons cd rest =>
      simp only [step, Option.some.injEq, Prod.mk.injEq] at he
      obtain ⟨hr, hs⟩ := he
      subst hr
      subst hs
      rw [PortSorted, List.pairwise_cons] at hsort
      have hb2 : 0 ≤ b * (1 + cfg.investment_return) -
          min (b * (1 + cfg.investment_return))
            ((cfg.desired_income * (1 + cfg.inflation_rate) ^ (y + 1 + cfg.desired_cd_maturity)) /
              (1 + 0.2 * (cfg.desired_cd_maturity : ℚ) * cfg.cd_rate) ^ cfg.desired_cd_maturity) :=
        sub_min_nonneg _ _
      have hsort' : PortSorted (rest ++
          [⟨y + 1, cfg.desired_cd_maturity, cfg.cd_rate,
            min (b * (1 + cfg.investment_return))
              ((cfg.desired_income * (1 + cfg.inflation_rate) ^ (y + 1 + cfg.desired_cd_maturity)) /
                (1 + 0.2 * (cfg.desired_cd_maturity : ℚ) * cfg.cd_rate) ^ cfg.desired_cd_maturity)⟩]) := by
        rw [PortSorted, List.pairwise_append]
        refine ⟨hsort.2, by simp, ?_⟩
        intro a ha c hc
        rw [List.mem_singleton] at hc
        subst hc
        have h1 : maturityKey a ≤ y + cfg.desired_cd_maturity :=
          hbound a (List.mem_cons_of_mem cd ha)
        simp only [maturityKey] at h1 ⊢
        omega
      have hbound' : PortBound cfg (y + 1) (rest ++
          [⟨y + 1, cfg.desired_cd_maturity, cfg.cd_rate,
            min (b * (1 + cfg.investment_return))
              ((cfg.desired_income * (1 + cfg.inflation_rate) ^ (y + 1 + cfg.desired_cd_maturity)) /
                (1 + 0.2 * (cfg.desired_cd_maturity : ℚ) * cfg.cd_rate) ^ cfg.desired_cd_maturity)⟩]) := by
        intro c hc
        rcases List.mem_append.mp hc with hcl | hcr
        · have h1 : maturityKey c ≤ y + cfg.desired_cd_maturity :=
            hbound c (List.mem_cons_of_mem cd hcl)
          omega
        · rw [List.mem_singleton] at hcr
          subst hcr
          simp only [maturityKey]
          omega
      have hlen' : (rest ++
          [(⟨y + 1, cfg.desired_cd_maturity, cfg.cd_rate,
            min (b * (1 + cfg.investment_return))
              ((cfg.desired_income * (1 + cfg.inflation_rate) ^ (y + 1 + cfg.desired_cd_maturity)) /
                (1 + 0.2 * (cfg.desired_cd_maturity : ℚ) * cfg.cd_rate) ^ cfg.desired_cd_maturity)⟩ :
              CD)]).length = (ladderResult cfg).2.length := by
        simpa using hlen
      refine ⟨?_, hb2, ?_⟩
      · split
        · next hc => exact ⟨hc, hsort', hbound'⟩
        · next hc => exact ⟨hb2, hsort', hbound', hlen'⟩
      · split
        · rfl
        · rfl
  | phase2 y b p =>
    obtain ⟨hb0, hsort, hbound⟩ := hI
    cases p with
    | nil => exact Option.noConfusion he
    | cons cd rest =>
      simp only [step, Option.some.injEq, Prod.mk.injEq] at he
      obtain ⟨hr, hs⟩ := he
      subst hr
      subst hs
      rw [PortSorted, List.pairwise_cons] at hsort
      refine ⟨⟨hb0, hsort.2, ?_⟩, le_of_eq hb0.symm, rfl⟩
      intro c hc
      have h1 : maturityKey c ≤ y + cfg.desired_cd_maturity :=
        hbound c (List.mem_cons_of_mem cd hc)
      omega

lemma iter_inv (cfg : Config) :
    ∀ (n : Nat) (s s' : SimState), SimInv cfg s → iter cfg n s = some s' → SimInv cfg s' := by
  intro n
  induction n with
  | zero =>
    intro s s' hI h
    simp only [iter, Option.some.injEq] at h
    subst h
    exact hI
  | succ n ih =>
    intro s s' hI h
    cases hst : step cfg s with
    | none =>
      simp only [iter, hst] at h
      exact Option.noConfusion h
    | some p =>
      obtain ⟨r, s1⟩ := p
      simp only [iter, hst] at h
      exact ih s1 s' (step_inv cfg hI hst).1 h

lemma reach_inv (cfg : Config) (n : Nat) (s : SimState)
    (h : iter cfg n SimState.start = some s) : SimInv cfg s :=
  iter_inv cfg n SimState.start s trivial h

lemma runFrom_balance_nonneg (cfg : Config) :
    ∀ (n : Nat) (s : SimState), SimInv cfg s →
      ∀ r ∈ runFrom cfg s n, 0 ≤ r.balance := by
  intro n
  induction n with
  | zero => intro s _ r hr; simp [runFrom] at hr
  | succ n ih =>
    intro s hI r hr
    cases hst : step cfg s with
    | none =>
      simp only [runFrom, hst] at hr
      simp at hr
    | some p =>
      obtain ⟨r0, s1⟩ := p
      simp only [runFrom, hst, List.mem_cons] at hr
      rcases hr with hr | hr
      · subst hr
        exact (step_inv cfg hI hst).2.1
      · exact ih s1 (step_inv cfg hI hst).1 r hr

lemma runFrom_length_le (cfg : Config) :
    ∀ (n : Nat) (s : SimState), (runFrom cfg s n).length ≤ n := by
  intro n
  induction n with
  | zero => intro s; simp [runFrom]
  | succ n ih =>
    intro s
    cases hst : step cfg s with
    | none => simp [runFrom, hst]
    | some p =>
      obtain ⟨r0, s1⟩ := p
      simp only [runFrom, hst, List.length_cons]
      exact Nat.succ_le_succ (ih s1)

lemma runFrom_take (cfg : Config) :
    ∀ (n m : Nat) (s : SimState), n ≤ m →
      runFrom cfg s n = (runFrom cfg s m).take n := by
  intro n
  induction n with
  | zero => intro m s _; simp [runFrom]
  | succ n ih =>
    intro m s hnm
    cases m with
    | zero => omega
    | succ m =>
      cases hst : step cfg s with
      | none => simp [runFrom, hst]
      | some p =>
        obtain ⟨r0, s1⟩ := p
        simp only [runFrom, hst, List.take_succ_cons]
        rw [ih m s1 (Nat.succ_le_succ_iff.mp hnm)]

lemma runFrom_length_lt_iff (cfg : Config) :
    ∀ (n : Nat) (s : SimState),
      (runFrom cfg s n).length < n ↔ iter cfg n s = none := by
  intro n
  induction n with
  | zero => intro s; simp [runFrom, iter]
  | succ n ih =>
    intro s
    cases hst : step cfg s with
    | none => simp [runFrom, iter, hst]
    | some p =>
      obtain ⟨r0, s1⟩ := p
      simp only [runFrom, iter, hst, List.length_cons, Nat.succ_lt_succ_iff]
      exact ih s1

lemma buildLadder_eq_specRungs (cfg : Config) :
    ∀ (k : Nat) (m : Int) (b : ℚ),
      buildLadder cfg b ((List.range k).map (fun (i : Nat) => (i : Int) + m)) =
        specRungs cfg k m b := by
  intro k
  induction k with
  | zero => intro m b; simp [buildLadder, specRungs]
  | succ k ih =>
    intro m b
    have hlist : (List.range (k + 1)).map (fun (i : Nat) => (i : Int) + m) =
        m :: (List.range k).map (fun (i : Nat) => (i : Int) + (m + 1)) := by
      rw [List.range_succ_eq_map]
      simp only [List.map_cons, List.map_map, Nat.cast_zero, zero_add]
      congr 1
      apply List.map_congr_left
      intro i _
      simp only [Function.comp_apply]
      push_cast
      ring
    rw [hlist]
    simp only [buildLadder, specRungs]
    rw [ih (m + 1)]

lemma ladderResult_eq_spec (cfg : Config) :
    ladderResult cfg =
      specRungs cfg cfg.desired_cd_maturity.toNat 1 (phase0Balance cfg) := by
  rw [ladderResult, ladderMaturities]
  exact buildLadder_eq_specRungs cfg _ 1 _

lemma ladder_zero_balance (cfg : Config) (hM : 1 ≤ cfg.desired_cd_maturity)
    (hb : phase0Balance cfg = 0) (ht : 0 ≤ firstRungTarget cfg) :
    ladderResult cfg = (0, [⟨0, 1, 0.2 * cfg.cd_rate, 0⟩]) := by
  obtain ⟨k, hk⟩ : ∃ k, cfg.desired_cd_maturity.toNat = k + 1 :=
    ⟨cfg.desired_cd_maturity.toNat - 1, by omega⟩
  have hms : ∃ tl, ladderMaturities cfg = 1 :: tl := by
    rw [ladderMaturities, hk, List.range_succ_eq_map]
    simp only [List.map_cons, List.map_map, Nat.cast_zero, zero_add]
    exact ⟨_, rfl⟩
  obtain ⟨tl, htl⟩ := hms
  rw [ladderResult, hb, htl]
  simp only [buildLadder]
  have hmin : min (0 : ℚ)
      ((cfg.desired_income * (1 + cfg.inflation_rate) ^ (1 : Int)) /
        (1 + 0.2 * ((1 : Int) : ℚ) * cfg.cd_rate) ^ (1 : Int)) = 0 := by
    apply min_eq_left
    simpa [firstRungTarget] using ht
  rw [hmin]
  norm_num

lemma run_cfg7_eval :
    Simulator.run cfg7 10 =
      [⟨0, 0, [⟨0, 1, 1/500, 0⟩], 0⟩,
       ⟨1, 0, [⟨1, 5, 1/100, 0⟩], 0⟩,
       ⟨2, 0, [], 0⟩] := by
  simp [Simulator.run, runFrom, step, cfg7, ladderResult, phase0Balance, phase0Income,
    ladderMaturities, buildLadder, CD.future_value]
  norm_num

lemma run_cfg7_one :
    Simulator.run cfg7 1 = [⟨0, 0, [⟨0, 1, 1/500, 0⟩], 0⟩] := by
  have h := runFrom_take cfg7 1 10 SimState.start (by norm_num)
  rw [Simulator.run, h]
  rw [show runFrom cfg7 SimState.start 10 = Simulator.run cfg7 10 from rfl, run_cfg7_eval]
  rfl

lemma iter_cfg7_one :
    iter cfg7 1 SimState.start =
      some (SimState.phase1 0 0 [⟨0, 1, 1/500, 0⟩]) := by
  simp [iter, step, cfg7, ladderResult, phase0Balance, phase0Income,
    ladderMaturities, buildLadder]
  norm_num

lemma iter_cfg7_four : iter cfg7 4 SimState.start = none := by
  simp [iter, step, cfg7, ladderResult, phase0Balance, phase0Income,
    ladderMaturities, buildLadder, CD.future_value]
  norm_num

/-- C1: for every configuration and every bounded unfolding of the simulation
sequence, the balance field of every emitted record is nonnegative.  Every
withdrawal and purchase is capped by the available balance with min, and
Phase 2 is entered only with a balance of exactly zero. -/
theorem C1_balance_nonneg (cfg : Config) (n : Nat) (r : Record)
    (h : r ∈ Simulator.run cfg n) : 0 ≤ r.balance :=
  runFrom_balance_nonneg cfg n SimState.start trivial r h

/-- Witness for C1 at the degenerate configuration: the year-0 record of the
run of length 1 has nonnegative balance. -/
theorem C1_balance_nonneg_witness :
    0 ≤ (Record.mk 0 0 [CD.mk 0 1 (1/500) 0] 0).balance :=
  C1_balance_nonneg cfg7 1 ⟨0, 0, [⟨0, 1, 1/500, 0⟩], 0⟩
    (by rw [run_cfg7_one]; exact List.mem_singleton.mpr rfl)

/-- C2: future_value is the purchase price compounded at the stored rate for
min(maturity, future_year - year) years: in particular it compounds for k
years when 0 ≤ k ≤ maturity, is flat at the matured value for k past the
maturity, and the missing argument defaults to year + maturity.  The function
is a pure function of the four CD attributes and the queried year. -/
theorem C2_future_value (cd : CD) (fy k : Int) :
    cd.future_value (some fy) =
      cd.price * (1 + cd.rate) ^ (min cd.maturity (fy - cd.year)) ∧
    (0 ≤ k → k ≤ cd.maturity →
      cd.future_value (some (cd.year + k)) = cd.price * (1 + cd.rate) ^ k) ∧
    (cd.maturity < k →
      cd.future_value (some (cd.year + k)) =
        cd.future_value (some (cd.year + cd.maturity))) ∧
    cd.future_value none = cd.future_value (some (cd.year + cd.maturity)) := by
  refine ⟨rfl, ?_, ?_, rfl⟩
  · intro _ hk
    simp [CD.future_value, add_sub_cancel_left, min_eq_right hk]
  · intro hk
    simp [CD.future_value, add_sub_cancel_left, min_eq_left (le_of_lt hk), min_self]

/-- Witness for C2: a 2-year CD bought in year 0 for 5 at rate 1/10 is worth
5 * (1 + 1/10) after one year. -/
theorem C2_future_value_witness :
    (CD.mk 0 2 (1/10) 5).future_value (some (0 + 1)) = 5 * (1 + 1/10) ^ (1 : Int) :=
  (C2_future_value ⟨0, 2, 1/10, 5⟩ 3 1).2.1 (by norm_num) (by norm_num)

/-- C3: the year-0 step emits income min(initial_balance, desired_income) and
the ladder produced by the claim-side Phase-0 description (rungs with rate
0.2 * m * cd_rate and price min(balance, inflated target discounted at the
rung rate) for m counting up from 1, stopping when the balance is exactly 0),
and the emitted balance and portfolio are exactly the state carried into
Phase 1. -/
theorem C3_phase0_record (cfg : Config) :
    step cfg SimState.start =
      some (⟨0, min cfg.initial_balance cfg.desired_income,
             (specRungs cfg cfg.desired_cd_maturity.toNat 1
               (cfg.initial_balance - min cfg.initial_balance cfg.desired_income)).2,
             (specRungs cfg cfg.desired_cd_maturity.toNat 1
               (cfg.initial_balance - min cfg.initial_balance cfg.desired_income)).1⟩,
            SimState.phase1 0
              (specRungs cfg cfg.desired_cd_maturity.toNat 1
                (cfg.initial_balance - min cfg.initial_balance cfg.desired_income)).1
              (specRungs cfg cfg.desired_cd_maturity.toNat 1
                (cfg.initial_balance - min cfg.initial_balance cfg.desired_income)).2) := by
  have h := ladderResult_eq_spec cfg
  simp only [step, phase0Income, phase0Balance, h]

/-- C5: a run of max_years yields at most max_years records, is a prefix
(take) of any longer unfolding of the underlying sequence, and yields fewer
than max_years records exactly when the underlying sequence terminates within
max_years steps. -/
theorem C5_run_bounded (cfg : Config) (n : Nat) :
    (Simulator.run cfg n).length ≤ n ∧
    (∀ m, n ≤ m → Simulator.run cfg n = (Simulator.run cfg m).take n) ∧
    ((Simulator.run cfg n).length < n ↔ iter cfg n SimState.start = none) :=
  ⟨runFrom_length_le cfg n SimState.start,
   fun m hm => runFrom_take cfg n m SimState.start hm,
   runFrom_length_lt_iff cfg n SimState.start⟩

/-- Witness for C5: the degenerate run of length 5 is the take-5 prefix of
the run of length 9. -/
theorem C5_run_bounded_witness :
    Simulator.run cfg7 5 = (Simulator.run cfg7 9).take 5 :=
  (C5_run_bounded cfg7 5).2.1 9 (by norm_num)

/-- C9: the output of run is determined by the six configuration attributes
alone: any two simulators agreeing on all six fields produce identical record
sequences for every max_years, because each run builds its transient state
(year, balance, portfolio) afresh from the configuration. -/
theorem C9_run_deterministic (a b : Config)
    (h1 : a.initial_balance = b.initial_balance)
    (h2 : a.desired_income = b.desired_income)
    (h3 : a.desired_cd_maturity = b.desired_cd_maturity)
    (h4 : a.cd_rate = b.cd_rate)
    (h5 : a.investment_return = b.investment_return)
    (h6 : a.inflation_rate = b.inflation_rate)
    (n : Nat) : Simulator.run a n = Simulator.run b n := by
  have hab : a = b := by
    cases a
    cases b
    simp_all
  rw [hab]

/-- Witness for C9: two syntactically different but equal configurations give
the same 3-year run. -/
theorem C9_run_deterministic_witness :
    Simulator.run ⟨1/2, 100, 5, 1/100, 1/20, 1/40⟩ 3 =
      Simulator.run ⟨2/4, 100, 5, 1/100, 1/20, 1/40⟩ 3 :=
  C9_run_deterministic ⟨1/2, 100, 5, 1/100, 1/20, 1/40⟩ ⟨2/4, 100, 5, 1/100, 1/20, 1/40⟩
    (by norm_num) rfl rfl rfl rfl rfl 3

/-- C6: at every reachable generator state the portfolio is ordered by
maturity year, so the front CD — the only one ever redeemed — matures no
later than every other held CD, and every step changes the portfolio only by
removing at most one CD from the front and appending some CDs at the back
(exactly one append in Phase 1, none in Phase 2). -/
theorem C6_fifo (cfg : Config) (n : Nat) (s : SimState)
    (h : iter cfg n SimState.start = some s) :
    PortSorted (portOf s) ∧
    (∀ cd rest, portOf s = cd :: rest → ∀ c ∈ rest, maturityKey cd ≤ maturityKey c) ∧
    (∀ (r : Record) (s' : SimState), step cfg s = some (r, s') →
      ∃ (k : Nat) (app : List CD), k ≤ 1 ∧ portOf s' = (portOf s).drop k ++ app) := by
  have hI := reach_inv cfg n s h
  have hsorted : PortSorted (portOf s) := by
    cases s with
    | start => exact List.Pairwise.nil
    | phase1 y b p => exact hI.2.1
    | phase2 y b p => exact hI.2.1
  refine ⟨hsorted, ?_, ?_⟩
  · intro cd rest hp c hc
    rw [hp, PortSorted, List.pairwise_cons] at hsorted
    exact hsorted.1 c hc
  · intro r s' hst
    cases s with
    | start =>
      simp only [step, Option.some.injEq, Prod.mk.injEq] at hst
      obtain ⟨hr, hs⟩ := hst
      subst hs
      exact ⟨0, (ladderResult cfg).2, by omega, by simp [portOf]⟩
    | phase1 y b p =>
      cases p with
      | nil =>
        simp only [step, Option.some.injEq, Prod.mk.injEq] at hst
        obtain ⟨hr, hs⟩ := hst
        subst hs
        refine ⟨0, [], by omega, ?_⟩
        split
        · simp [portOf]
        · simp [portOf]
      | cons cd rest =>
        simp only [step, Option.some.injEq, Prod.mk.injEq] at hst
        obtain ⟨hr, hs⟩ := hst
        subst hs
        refine ⟨1, [⟨y + 1, cfg.desired_cd_maturity, cfg.cd_rate,
          min (b * (1 + cfg.investment_return))
            ((cfg.desired_income * (1 + cfg.inflation_rate) ^ (y + 1 + cfg.desired_cd_maturity)) /
              (1 + 0.2 * (cfg.desired_cd_maturity : ℚ) * cfg.cd_rate) ^
                cfg.desired_cd_maturity)⟩], le_refl 1, ?_⟩
        split
        · simp [portOf]
        · simp [portOf]
    | phase2 y b p =>
      cases p with
      | nil => exact Option.noConfusion hst
      | cons cd rest =>
        simp only [step, Option.some.injEq, Prod.mk.injEq] at hst
        obtain ⟨hr, hs⟩ := hst
        subst hs
        exact ⟨1, [], by omega, by simp [portOf]⟩

/-- Witness for C6 at the initial state of the degenerate configuration. -/
theorem C6_fifo_witness :
    PortSorted (portOf SimState.start) ∧
    (∀ cd rest, portOf SimState.start = cd :: rest →
      ∀ c ∈ rest, maturityKey cd ≤ maturityKey c) ∧
    (∀ (r : Record) (s' : SimState), step cfg7 SimState.start = some (r, s') →
      ∃ (k : Nat) (app : List CD), k ≤ 1 ∧
        portOf s' = (portOf SimState.start).drop k ++ app) :=
  C6_fifo cfg7 0 SimState.start rfl

/-- C8 amended: the empty-portfolio branch of Phase 1 is unreachable whenever
desired_cd_maturity is at least 1 — even when the balance hits 0 during
Phase 0, since the rung loop still appends one (zero-price) CD before the
early-stop check — and is reached in every Phase-1 iteration exactly when
desired_cd_maturity is below 1, so that the rung loop never runs. -/
theorem C8_empty_branch (cfg : Config) :
    (1 ≤ cfg.desired_cd_maturity →
      ∀ (n : Nat) (y : Int) (b : ℚ) (p : List CD),
        iter cfg n SimState.start = some (SimState.phase1 y b p) → p ≠ []) ∧
    (cfg.desired_cd_maturity < 1 →
      ∀ (n : Nat) (y : Int) (b : ℚ) (p : List CD),
        iter cfg n SimState.start = some (SimState.phase1 y b p) → p = []) := by
  constructor
  · intro hM n y b p h hp
    have hI := reach_inv cfg n _ h
    have hlen : p.length = (ladderResult cfg).2.length := hI.2.2.2
    subst hp
    exact ladder_ne_nil cfg hM (List.length_eq_zero.mp hlen.symm)
  · intro hM n y b p h
    have hI := reach_inv cfg n _ h
    have hlen : p.length = (ladderResult cfg).2.length := hI.2.2.2
    rw [ladder_nil_of_lt_one cfg hM] at hlen
    exact List.length_eq_zero.mp (by simpa using hlen)

/-- Witness for C8: after one step of the degenerate configuration the
Phase-1 portfolio [CD(0, 1, 1/500, 0)] is nonempty. -/
theorem C8_empty_branch_witness :
    ([⟨0, 1, 1/500, 0⟩] : List CD) ≠ [] :=
  (C8_empty_branch cfg7).1 (by norm_num [cfg7]) 1 0 0 [⟨0, 1, 1/500, 0⟩] iter_cfg7_one

/-- Counterexample for C8 as stated: in the degenerate configuration the
balance hits exactly 0 during Phase 0 (indeed before the rung loop), yet the
ladder is still built — one zero-price rung — and the first Phase-1 state
holds a nonempty portfolio, so the empty-portfolio branch is not reached in
the situation the claim designates as the branch trigger. -/
theorem C8_counterexample :
    phase0Balance cfg7 = 0 ∧
    (ladderResult cfg7).2 ≠ [] ∧
    iter cfg7 1 SimState.start =
      some (SimState.phase1 0 0 [⟨0, 1, 1/500, 0⟩]) := by
  refine ⟨?_, ?_, iter_cfg7_one⟩
  · simp [phase0Balance, phase0Income, cfg7]
  · simp [ladderResult, phase0Balance, phase0Income, cfg7, ladderMaturities, buildLadder]
    norm_num

/-- C10: with desired_cd_maturity at least 1, Phase 0 appends at least one CD
(exactly one zero-price CD when the balance entering the rung loop is already
0 and the first target is nonnegative, since the early-stop check runs only
after the append), and every Phase-1 step from a reachable state removes
exactly the front CD and appends exactly one at the back, so the portfolio
size at every Phase-1 yield equals the number of rungs built in Phase 0 and
the portfolio is never empty during Phase 1. -/
theorem C10_portfolio_size (cfg : Config) (hM : 1 ≤ cfg.desired_cd_maturity) :
    1 ≤ (ladderResult cfg).2.length ∧
    (phase0Balance cfg = 0 → 0 ≤ firstRungTarget cfg →
      ladderResult cfg = (0, [⟨0, 1, 0.2 * cfg.cd_rate, 0⟩])) ∧
    (∀ (n : Nat) (y : Int) (b : ℚ) (p : List CD),
      iter cfg n SimState.start = some (SimState.phase1 y b p) →
        p ≠ [] ∧ p.length = (ladderResult cfg).2.length ∧
        ∀ (r : Record) (s' : SimState),
          step cfg (SimState.phase1 y b p) = some (r, s') →
            r.portfolio.length = (ladderResult cfg).2.length ∧
            r.portfolio ≠ [] ∧
            ∃ newcd, r.portfolio = p.tail ++ [newcd] ∧ portOf s' = r.portfolio) := by
  refine ⟨?_, ladder_zero_balance cfg hM, ?_⟩
  · have hpos : 0 < (ladderResult cfg).2.length :=
      List.length_pos.mpr (ladder_ne_nil cfg hM)
    omega
  · intro n y b p h
    have hI := reach_inv cfg n _ h
    have hlen : p.length = (ladderResult cfg).2.length := hI.2.2.2
    have hne : p ≠ [] := by
      intro hp
      subst hp
      exact ladder_ne_nil cfg hM (List.length_eq_zero.mp hlen.symm)
    refine ⟨hne, hlen, ?_⟩
    intro r s' hst
    cases p with
    | nil => exact absurd rfl hne
    | cons cd rest =>
      simp only [step, Option.some.injEq, Prod.mk.injEq] at hst
      obtain ⟨hr, hs⟩ := hst
      subst hr
      subst hs
      refine ⟨?_, by simp, ?_⟩
      · simp only [List.length_cons] at hlen
        simpa using hlen
      · exact ⟨_, rfl, by split <;> rfl⟩

/-- Witness for C10 at the degenerate configuration: its Phase 0 builds at
least one rung, and since its balance enters the rung loop at 0 with a
nonnegative first target, the ladder is exactly one zero-price CD. -/
theorem C10_portfolio_size_witness :
    1 ≤ (ladderResult cfg7).2.length ∧
    ladderResult cfg7 = (0, [⟨0, 1, 0.2 * (1/100), 0⟩]) :=
  ⟨(C10_portfolio_size cfg7 (by norm_num [cfg7])).1,
   (C10_portfolio_size cfg7 (by norm_num [cfg7])).2.1
     (by simp [phase0Balance, phase0Income, cfg7])
     (by norm_num [firstRungTarget, cfg7])⟩

/-- C4: a Phase-1 step with a nonempty portfolio increments the year, grows
the balance by the investment return, realizes the front CD at its
future_value in the new year as income, buys a replacement CD at the
rollover price with the base cd_rate stored as its rate (not the scaled
terminal rung rate used for discounting in the price), appends it at the
back, and moves to Phase 2 exactly when the resulting balance is zero. -/
theorem C4_phase1_rollover (cfg : Config) (y : Int) (b : ℚ) (cd : CD)
    (rest : List CD) :
    ∃ (r : Record) (s' : SimState),
      step cfg (SimState.phase1 y b (cd :: rest)) = some (r, s') ∧
      r.year = y + 1 ∧
      r.income = cd.future_value (some (y + 1)) ∧
      r.balance = b * (1 + cfg.investment_return) - rolloverPrice cfg y b ∧
      r.portfolio = rest ++
        [⟨y + 1, cfg.desired_cd_maturity, cfg.cd_rate, rolloverPrice cfg y b⟩] ∧
      (s' = SimState.phase2 (y + 1) r.balance r.portfolio ↔ r.balance = 0) ∧
      (r.balance ≠ 0 → s' = SimState.phase1 (y + 1) r.balance r.portfolio) := by
  by_cases hc : b * (1 + cfg.investment_return) -
      min (b * (1 + cfg.investment_return))
        ((cfg.desired_income * (1 + cfg.inflation_rate) ^ (y + 1 + cfg.desired_cd_maturity)) /
          (1 + 0.2 * (cfg.desired_cd_maturity : ℚ) * cfg.cd_rate) ^
            cfg.desired_cd_maturity) = 0
  · refine ⟨⟨y + 1, cd.future_value (some (y + 1)),
      rest ++ [⟨y + 1, cfg.desired_cd_maturity, cfg.cd_rate, rolloverPrice cfg y b⟩],
      b * (1 + cfg.investment_return) - rolloverPrice cfg y b⟩,
      SimState.phase2 (y + 1)
        (b * (1 + cfg.investment_return) - rolloverPrice cfg y b)
        (rest ++ [⟨y + 1, cfg.desired_cd_maturity, cfg.cd_rate, rolloverPrice cfg y b⟩]),
      ?_, rfl, rfl, rfl, rfl, ?_, ?_⟩
    · simp only [step]
      rw [if_pos hc]
      simp only [rolloverPrice]
    · exact iff_of_true rfl hc
    · intro hne
      exact absurd hc hne
  · refine ⟨⟨y + 1, cd.future_value (some (y + 1)),
      rest ++ [⟨y + 1, cfg.desired_cd_maturity, cfg.cd_rate, rolloverPrice cfg y b⟩],
      b * (1 + cfg.investment_return) - rolloverPrice cfg y b⟩,
      SimState.phase1 (y + 1)
        (b * (1 + cfg.investment_return) - rolloverPrice cfg y b)
        (rest ++ [⟨y + 1, cfg.desired_cd_maturity, cfg.cd_rate, rolloverPrice cfg y b⟩]),
      ?_, rfl, rfl, rfl, rfl, ?_, ?_⟩
    · simp only [step]
      rw [if_neg hc]
      simp only [rolloverPrice]
    · exact iff_of_false (fun hcon => SimState.noConfusion hcon) hc
    · intro _
      rfl

/-- Witness for C4 at the degenerate configuration after Phase 0. -/
theorem C4_phase1_rollover_witness :
    ∃ (r : Record) (s' : SimState),
      step cfg7 (SimState.phase1 0 0 [⟨0, 1, 1/500, 0⟩]) = some (r, s') ∧
      r.year = 0 + 1 ∧
      r.income = (CD.mk 0 1 (1/500) 0).future_value (some (0 + 1)) ∧
      r.balance = 0 * (1 + cfg7.investment_return) - rolloverPrice cfg7 0 0 ∧
      r.portfolio = [] ++
        [⟨0 + 1, cfg7.desired_cd_maturity, cfg7.cd_rate, rolloverPrice cfg7 0 0⟩] ∧
      (s' = SimState.phase2 (0 + 1) r.balance r.portfolio ↔ r.balance = 0) ∧
      (r.balance ≠ 0 → s' = SimState.phase1 (0 + 1) r.balance r.portfolio) :=
  C4_phase1_rollover cfg7 0 0 ⟨0, 1, 1/500, 0⟩ []

/-- Counterexample for C7 as stated: with initial_balance = 0 and
desired_income = 100 (other parameters at their defaults), the year-0 record
holds one CD, not zero — the Phase-0 rung loop appends a zero-price CD before
its early-stop check — so Phase 0 does purchase a CD and Phase 1 cannot take
the empty-portfolio branch. -/
theorem C7_counterexample :
    (Simulator.run cfg7 1).map (fun r => r.portfolio.length) = [1] := by
  rw [run_cfg7_one]
  rfl

/-- C7 amended: in the degenerate configuration the year-0 record has income
0 and balance 0 but carries one zero-price CD; Phase 1 then takes the
nonempty branch at year 1 (income 0 from the matured zero-price rung, one
zero-price replacement CD bought) and terminates under the zero-balance rule;
Phase 2 drains the replacement at year 2 with income 0; the sequence
terminates after three records instead of looping. -/
theorem C7_degenerate_trace :
    Simulator.run cfg7 10 =
      [⟨0, 0, [⟨0, 1, 1/500, 0⟩], 0⟩,
       ⟨1, 0, [⟨1, 5, 1/100, 0⟩], 0⟩,
       ⟨2, 0, [], 0⟩] ∧
    iter cfg7 4 SimState.start = none :=
  ⟨run_cfg7_eval, iter_cfg7_four⟩

/-- Counterexample for C10 as stated: with inflation rate -3 the balance
entering the Phase-0 rung loop is 0, yet the first appended CD has price
-200, not 0 — min caps the price at the balance only from above, and a
negative target price is taken as is (and even replenishes the balance). -/
theorem C10_counterexample :
    phase0Balance cfgN = 0 ∧
    (ladderResult cfgN).2.map (fun cd => cd.price) = [-200, 200] := by
  constructor
  · simp [phase0Balance, phase0Income, cfgN]
  · simp [ladderResult, phase0Balance, phase0Income, cfgN, ladderMaturities, buildLadder]
    norm_num
